import Mathlib

/-!
Verification of the container interception orchestrator: env codec,
archive packer, container replacer, and docker tunnel lifecycle,
reconciliation, query and teardown, shallowly embedded from the
TypeScript sources (`docker-commands` / `docker-tunnel-proxy`).
-/

namespace HTDocker

/-!
### JavaScript primitives

JS objects with string keys are modelled as association lists held in
the runtime's ES2015 enumeration order (`OrdinaryOwnPropertyKeys`):
array-index keys first, in ascending numeric order, then the remaining
string keys in insertion order. `fromPairs` models lodash `_.fromPairs`
(a later pair with a duplicate key overwrites the value at the key's
existing position, as JS assignment does).
-/

abbrev JsObject := List (String × String)

/-- The numeric value of a digit string. -/
def digitsVal (cs : List Char) : Nat :=
  cs.foldl (fun n c => n * 10 + (c.toNat - 48)) 0

/-- ES2015 array-index keys: the canonical decimal string of an integer
below `2^32 − 1` — all digits, no leading zero unless the string is
`"0"` itself, value < 4294967295. `Object.keys` enumerates these first,
in ascending numeric order. -/
def isArrayIndex (s : String) : Bool :=
  match s.data with
  | [] => false
  | c :: cs =>
    (c :: cs).all Char.isDigit
    && (decide (c ≠ '0') || cs.isEmpty)
    && decide (digitsVal (c :: cs) < 4294967295)

def arrayIndexVal (s : String) : Nat := digitsVal s.data

/-- Insert a fresh array-index key into the ascending integer segment at
the front of an object in enumeration order: walk past smaller index
keys, insert before the first non-index key or larger index key. -/
def insertIntoIndexSegment (k v : String) : JsObject → JsObject
  | [] => [(k, v)]
  | p :: ps =>
    if isArrayIndex p.1 && decide (arrayIndexVal p.1 < arrayIndexVal k) then
      p :: insertIntoIndexSegment k v ps
    else
      (k, v) :: p :: ps

/-- JS property write `o[k] = v` on a plain object, maintaining the
ES2015 enumeration order: an existing key keeps its position and gets
the new value; a new array-index key joins the ascending integer segment
at the front; any other new key is appended at the end. -/
def setKey (o : JsObject) (k v : String) : JsObject :=
  if o.any (fun p => p.1 = k) then
    o.map (fun p => if p.1 = k then (k, v) else p)
  else if isArrayIndex k then
    insertIntoIndexSegment k v o
  else
    o ++ [(k, v)]

/-- lodash `_.fromPairs`: build an object by assigning each pair in order. -/
def fromPairs (ps : List (String × String)) : JsObject :=
  ps.foldl (fun o p => setKey o p.1 p.2) []

/-- Adjacent-pair condition of the ES2015 enumeration-order invariant:
an array-index key may only follow a smaller array-index key. -/
def canonicalStep (p q : String × String) : Bool :=
  if isArrayIndex q.1 then
    isArrayIndex p.1 && decide (arrayIndexVal p.1 < arrayIndexVal q.1)
  else true

/-- The enumeration-order invariant every plain JS object satisfies:
array-index keys form an ascending prefix, followed by the other keys. -/
def canonicalOrder : JsObject → Bool
  | [] => true
  | [_] => true
  | p :: q :: rest => canonicalStep p q && canonicalOrder (q :: rest)

/-- JS property read `o[k]`: `none` models `undefined`. -/
def jsGet {α : Type} (o : List (String × α)) (k : String) : Option α :=
  (o.find? (fun p => p.1 = k)).map Prod.snd

/-- `Object.keys` applied to a JS *array* yields its indices as strings. -/
def jsArrayKeys {α : Type} (l : List α) : List String :=
  (List.range l.length).map (fun i => toString i)

/-- `Array.prototype.map` with a callback that may throw: the first
exception (in element order) aborts the whole map. -/
def jsMapThrow {α β ε : Type} (f : α → Except ε β) : List α → Except ε (List β)
  | [] => .ok []
  | x :: xs =>
    match f x, jsMapThrow f xs with
    | .error e, _ => .error e
    | .ok _, .error e => .error e
    | .ok y, .ok ys => .ok (y :: ys)

/-- lodash `_.uniq`: keep the first occurrence of each element. -/
def jsUniq {α : Type} [DecidableEq α] (l : List α) : List α :=
  l.foldl (fun acc x => if x ∈ acc then acc else acc ++ [x]) []

/-!
### Env codec

`envArrayToObject` / `envObjectToArray` from the container-commands
source: conversion between `KEY=VALUE` entry lists and env objects.
-/

/-- Split one env entry at the first `=` character. This models
`e.indexOf('=')` followed by `e.slice(0, i)` / `e.slice(i + 1)`:
`none` is the `indexOf === -1` case. -/
def splitCharsAtFirstEq : List Char → Option (List Char × List Char)
  | [] => none
  | c :: rest =>
    if c = '=' then some ([], rest)
    else
      match splitCharsAtFirstEq rest with
      | none => none
      | some (k, v) => some (c :: k, v)

/-- The mapped callback of `envArrayToObject`: throws
`Error('Env var without =')` when the entry contains no `=`. -/
def splitEnvEntry (e : String) : Except String (String × String) :=
  match splitCharsAtFirstEq e.data with
  | none => .error "Env var without ="
  | some (k, v) => .ok (String.mk k, String.mk v)

/-- `envArrayToObject`: `_.fromPairs(envArray.map(e => ...))`. -/
def envArrayToObject (envArray : List String) : Except String JsObject :=
  match jsMapThrow splitEnvEntry envArray with
  | .error e => .error e
  | .ok pairs => .ok (fromPairs pairs)

/-- `envObjectToArray`: `Object.keys(envObject).map(k => k + '=' + envObject[k])`. -/
def envObjectToArray (envObject : JsObject) : List String :=
  envObject.map (fun p => p.1 ++ "=" ++ p.2)

/-- The key part of an env entry: everything before the first `=`. -/
def envKey (e : String) : String :=
  String.mk (e.data.takeWhile (fun c => c ≠ '='))

/-! ### Env codec lemmas -/

theorem mkData (s : String) : String.mk s.data = s := by
  cases s
  rfl

theorem splitCharsAtFirstEq_append (k v : List Char) (hk : '=' ∉ k) :
    splitCharsAtFirstEq (k ++ '=' :: v) = some (k, v) := by
  induction k with
  | nil => simp [splitCharsAtFirstEq]
  | cons c cs ih =>
    simp only [List.mem_cons, not_or] at hk
    have hc : ¬ c = '=' := fun h => hk.1 h.symm
    simp [splitCharsAtFirstEq, hc, ih hk.2]

theorem splitCharsAtFirstEq_eq_some (s k v : List Char)
    (h : splitCharsAtFirstEq s = some (k, v)) :
    s = k ++ '=' :: v ∧ '=' ∉ k := by
  induction s generalizing k v with
  | nil => simp [splitCharsAtFirstEq] at h
  | cons c rest ih =>
    by_cases hc : c = '='
    · subst hc
      simp [splitCharsAtFirstEq] at h
      obtain ⟨hk, hv⟩ := h
      subst hk
      subst hv
      simp
    · rw [splitCharsAtFirstEq, if_neg hc] at h
      cases hrest : splitCharsAtFirstEq rest with
      | none => rw [hrest] at h; simp at h
      | some p =>
        obtain ⟨k', v'⟩ := p
        rw [hrest] at h
        simp only [Option.some.injEq, Prod.mk.injEq] at h
        obtain ⟨hk, hv⟩ := h
        obtain ⟨hs, hnk⟩ := ih k' v' hrest
        subst hv
        constructor
        · rw [← hk, hs]
          simp
        · rw [← hk]
          simp only [List.mem_cons, not_or]
          exact ⟨fun h => hc h.symm, hnk⟩

theorem splitCharsAtFirstEq_eq_none (s : List Char) :
    splitCharsAtFirstEq s = none ↔ '=' ∉ s := by
  induction s with
  | nil => simp [splitCharsAtFirstEq]
  | cons c rest ih =>
    by_cases hc : c = '='
    · subst hc
      simp [splitCharsAtFirstEq]
    · rw [splitCharsAtFirstEq, if_neg hc]
      cases hrest : splitCharsAtFirstEq rest with
      | none =>
        simp only [List.mem_cons, not_or]
        exact iff_of_true trivial ⟨fun h => hc h.symm, ih.mp hrest⟩
      | some p =>
        simp only [List.mem_cons, not_or]
        constructor
        · intro h
          exact Option.noConfusion h
        · intro h
          rw [ih.mpr h.2] at hrest
          exact Option.noConfusion hrest

theorem takeWhile_append_eq (k v : List Char) (hk : '=' ∉ k) :
    (k ++ '=' :: v).takeWhile (fun c => c ≠ '=') = k := by
  induction k with
  | nil => simp
  | cons c cs ih =>
    simp only [List.mem_cons, not_or] at hk
    have hc : ¬ c = '=' := fun h => hk.1 h.symm
    simp only [List.cons_append, List.takeWhile_cons]
    simp only [hc, decide_False, Bool.not_false, ne_eq, if_true]
    simpa using ih hk.2

theorem splitEnvEntry_ok (e k v : String)
    (h : splitEnvEntry e = .ok (k, v)) :
    k ++ "=" ++ v = e ∧ envKey e = k ∧ '=' ∉ k.data := by
  unfold splitEnvEntry at h
  cases hs : splitCharsAtFirstEq e.data with
  | none => rw [hs] at h; exact Except.noConfusion h
  | some p =>
    obtain ⟨kc, vc⟩ := p
    rw [hs] at h
    simp only [Except.ok.injEq, Prod.mk.injEq] at h
    obtain ⟨hk, hv⟩ := h
    obtain ⟨hdata, hmem⟩ := splitCharsAtFirstEq_eq_some e.data kc vc hs
    subst hk
    subst hv
    refine ⟨by apply String.ext; simp [String.data_append, hdata],
      by unfold envKey; rw [hdata, takeWhile_append_eq kc vc hmem], hmem⟩

theorem splitEnvEntry_entry (k v : String) (hk : '=' ∉ k.data) :
    splitEnvEntry (k ++ "=" ++ v) = .ok (k, v) := by
  unfold splitEnvEntry
  have hdata : (k ++ "=" ++ v).data = k.data ++ '=' :: v.data := by
    simp [String.data_append]
  rw [hdata, splitCharsAtFirstEq_append k.data v.data hk]

theorem splitEnvEntry_error_iff (e : String) :
    splitEnvEntry e = .error "Env var without =" ↔ '=' ∉ e.data := by
  unfold splitEnvEntry
  cases hs : splitCharsAtFirstEq e.data with
  | none =>
    simp only [true_iff]
    exact (splitCharsAtFirstEq_eq_none e.data).mp hs
  | some p =>
    constructor
    · intro h
      exact Except.noConfusion h
    · intro hne
      rw [(splitCharsAtFirstEq_eq_none e.data).mpr hne] at hs
      exact Option.noConfusion hs

theorem canonical_prefix_lt (o : JsObject) (p : String × String) (rest : JsObject) :
    canonicalOrder (o ++ p :: rest) = true → isArrayIndex p.1 = true →
    ∀ q ∈ o, isArrayIndex q.1 = true ∧ arrayIndexVal q.1 < arrayIndexVal p.1 := by
  induction o with
  | nil =>
    intro _ _ q hq
    cases hq
  | cons r o' ih =>
    intro hcan hp q hq
    cases ho' : o' with
    | nil =>
      subst ho'
      simp only [List.cons_append, List.nil_append] at hcan
      rw [canonicalOrder, Bool.and_eq_true] at hcan
      have hstep := hcan.1
      rw [canonicalStep, if_pos hp, Bool.and_eq_true, decide_eq_true_iff] at hstep
      have hqr : q = r := by
        cases hq with
        | head => rfl
        | tail _ h => cases h
      subst hqr
      exact hstep
    | cons r' o'' =>
      subst ho'
      simp only [List.cons_append] at hcan
      rw [canonicalOrder, Bool.and_eq_true] at hcan
      have htail : canonicalOrder ((r' :: o'') ++ p :: rest) = true := hcan.2
      have hr' := ih htail hp r' (List.mem_cons_self r' o'')
      have hstep := hcan.1
      rw [canonicalStep, if_pos hr'.1, Bool.and_eq_true, decide_eq_true_iff] at hstep
      cases hq with
      | head => exact ⟨hstep.1, Nat.lt_trans hstep.2 hr'.2⟩
      | tail _ h => exact ih htail hp q h

theorem insertIntoIndexSegment_append (k v : String) (o : JsObject)
    (h : ∀ q ∈ o, isArrayIndex q.1 = true ∧ arrayIndexVal q.1 < arrayIndexVal k) :
    insertIntoIndexSegment k v o = o ++ [(k, v)] := by
  induction o with
  | nil => rfl
  | cons p ps ih =>
    obtain ⟨hidx, hlt⟩ := h p (List.mem_cons_self p ps)
    rw [insertIntoIndexSegment, if_pos (by simp [hidx, hlt]),
      ih (fun q hq => h q (List.mem_cons_of_mem p hq))]
    simp

theorem canonicalOrder_of_no_index (l : JsObject)
    (h : ∀ p ∈ l, isArrayIndex p.1 = false) : canonicalOrder l = true := by
  induction l with
  | nil => rfl
  | cons p ps ih =>
    cases ps with
    | nil => rfl
    | cons q ps' =>
      rw [canonicalOrder, Bool.and_eq_true]
      refine ⟨?_, ih (fun r hr => h r (List.mem_cons_of_mem p hr))⟩
      rw [canonicalStep, if_neg]
      rw [h q (List.mem_cons_of_mem p (List.mem_cons_self q ps'))]
      exact Bool.false_ne_true

theorem key_not_mem_of_nodup_append (o : JsObject) (p : String × String)
    (ps : List (String × String))
    (hnd : ((o ++ p :: ps).map Prod.fst).Nodup) :
    o.any (fun q => q.1 = p.1) = false := by
  rw [List.any_eq_false]
  intro q hq
  simp only [decide_eq_true_eq]
  intro hq1
  rw [List.map_append] at hnd
  have hdisj := List.disjoint_of_nodup_append hnd
  exact hdisj (List.mem_map.mpr ⟨q, hq, hq1⟩) (by simp)

theorem foldl_setKey_canonical (ps : List (String × String)) :
    ∀ o : JsObject, ((o ++ ps).map Prod.fst).Nodup →
    canonicalOrder (o ++ ps) = true →
    ps.foldl (fun o p => setKey o p.1 p.2) o = o ++ ps := by
  induction ps with
  | nil =>
    intro o _ _
    simp
  | cons p ps ih =>
    intro o hnd hcan
    rw [List.foldl_cons]
    have hfresh := key_not_mem_of_nodup_append o p ps hnd
    have hset : setKey o p.1 p.2 = o ++ [p] := by
      rw [setKey, if_neg (by simp [hfresh])]
      by_cases hidx : isArrayIndex p.1 = true
      · rw [if_pos hidx]
        exact insertIntoIndexSegment_append p.1 p.2 o
          (canonical_prefix_lt o p ps hcan hidx)
      · rw [if_neg hidx]
    rw [hset]
    have := ih (o ++ [p])
      (by simpa using hnd)
      (by simpa using hcan)
    simpa using this

theorem fromPairs_canonical (m : JsObject)
    (hnd : (m.map Prod.fst).Nodup) (hcan : canonicalOrder m = true) :
    fromPairs m = m := by
  have := foldl_setKey_canonical m [] (by simpa using hnd) (by simpa using hcan)
  simpa [fromPairs] using this

theorem insertIntoIndexSegment_perm (k v : String) (o : JsObject) :
    (insertIntoIndexSegment k v o).Perm (o ++ [(k, v)]) := by
  induction o with
  | nil => exact List.Perm.refl _
  | cons p ps ih =>
    rw [insertIntoIndexSegment]
    by_cases hc : (isArrayIndex p.1 && decide (arrayIndexVal p.1 < arrayIndexVal k)) = true
    · rw [if_pos hc]
      exact List.Perm.cons p ih
    · rw [if_neg hc]
      exact (List.perm_append_singleton _ _).symm

theorem setKey_perm (o : JsObject) (k v : String)
    (hfresh : o.any (fun p => p.1 = k) = false) :
    (setKey o k v).Perm (o ++ [(k, v)]) := by
  rw [setKey, if_neg (by simp [hfresh])]
  by_cases hidx : isArrayIndex k = true
  · rw [if_pos hidx]
    exact insertIntoIndexSegment_perm k v o
  · rw [if_neg hidx]

theorem foldl_setKey_perm (ps : List (String × String)) :
    ∀ o : JsObject, ((o ++ ps).map Prod.fst).Nodup →
    (ps.foldl (fun o p => setKey o p.1 p.2) o).Perm (o ++ ps) := by
  induction ps with
  | nil =>
    intro o _
    simp
  | cons p ps ih =>
    intro o hnd
    rw [List.foldl_cons]
    have hfresh := key_not_mem_of_nodup_append o p ps hnd
    have hsk := setKey_perm o p.1 p.2 hfresh
    have hperm : (setKey o p.1 p.2 ++ ps).Perm (o ++ p :: ps) := by
      have h1 := hsk.append_right ps
      simpa using h1
    have hnd' : ((setKey o p.1 p.2 ++ ps).map Prod.fst).Nodup :=
      ((hperm.map Prod.fst).nodup_iff).mpr hnd
    exact (ih (setKey o p.1 p.2) hnd').trans hperm

theorem fromPairs_perm (ps : List (String × String))
    (hnd : (ps.map Prod.fst).Nodup) : (fromPairs ps).Perm ps := by
  have := foldl_setKey_perm ps [] (by simpa using hnd)
  simpa [fromPairs] using this

theorem jsMapThrow_map {α β γ ε : Type} (f : β → Except ε γ) (g : α → β) :
    ∀ l : List α, jsMapThrow f (l.map g) = jsMapThrow (fun x => f (g x)) l := by
  intro l
  induction l with
  | nil => rfl
  | cons x xs ih => simp only [List.map_cons, jsMapThrow, ih]

theorem jsMapThrow_ok_of_forall {α β ε : Type} (f : α → Except ε β) (g : α → β) :
    ∀ l : List α, (∀ x ∈ l, f x = .ok (g x)) → jsMapThrow f l = .ok (l.map g) := by
  intro l
  induction l with
  | nil => intro _; rfl
  | cons x xs ih =>
    intro h
    rw [jsMapThrow, h x (List.mem_cons_self x xs),
      ih (fun y hy => h y (List.mem_cons_of_mem x hy))]
    rfl

theorem envArrayToObject_pairs (l : List String) (h : ∀ e ∈ l, '=' ∈ e.data) :
    ∃ ps : List (String × String),
      jsMapThrow splitEnvEntry l = .ok ps
      ∧ ps.map (fun p => p.1 ++ "=" ++ p.2) = l
      ∧ ps.map Prod.fst = l.map envKey := by
  induction l with
  | nil => exact ⟨[], rfl, rfl, rfl⟩
  | cons e es ih =>
    obtain ⟨ps, hps, hjoin, hkeys⟩ := ih (fun x hx => h x (List.mem_cons_of_mem e hx))
    have he : '=' ∈ e.data := h e (List.mem_cons_self e es)
    obtain ⟨k, v, hsome⟩ : ∃ k v, splitCharsAtFirstEq e.data = some (k, v) := by
      cases hs : splitCharsAtFirstEq e.data with
      | none => exact absurd ((splitCharsAtFirstEq_eq_none e.data).mp hs) (by simp [he])
      | some p => exact ⟨p.1, p.2, by simp [hs]⟩
    have hsplit : splitEnvEntry e = .ok (String.mk k, String.mk v) := by
      unfold splitEnvEntry
      rw [hsome]
    obtain ⟨hjoin1, hkey1, _⟩ := splitEnvEntry_ok e (String.mk k) (String.mk v) hsplit
    refine ⟨(String.mk k, String.mk v) :: ps, ?_, ?_, ?_⟩
    · rw [jsMapThrow, hsplit, hps]
    · simp only [List.map_cons, hjoin, hjoin1]
    · simp only [List.map_cons, hkeys, hkey1]

/-- The list-to-mapping-to-list direction: the round trip returns
exactly the original strings (a permutation), and the original order
itself whenever no key is an array-index string (such keys are
enumerated first, ascending, by the runtime). -/
theorem envArrayToObject_of_entries (l : List String)
    (hl : ∀ e ∈ l, '=' ∈ e.data) (hlnd : (l.map envKey).Nodup) :
    ∃ m', envArrayToObject l = .ok m'
      ∧ (envObjectToArray m').Perm l
      ∧ ((∀ e ∈ l, isArrayIndex (envKey e) = false) → envObjectToArray m' = l) := by
  obtain ⟨ps, hps, hjoin, hkeys⟩ := envArrayToObject_pairs l hl
  have hndps : (ps.map Prod.fst).Nodup := by
    rw [hkeys]
    exact hlnd
  refine ⟨fromPairs ps, by rw [envArrayToObject, hps], ?_, ?_⟩
  · have hperm := (fromPairs_perm ps hndps).map (fun p => p.1 ++ "=" ++ p.2)
    rw [hjoin] at hperm
    exact hperm
  · intro hnoidx
    have hcan : canonicalOrder ps = true := by
      apply canonicalOrder_of_no_index
      intro p hp
      have hmem : p.1 ∈ l.map envKey := by
        rw [← hkeys]
        exact List.mem_map_of_mem Prod.fst hp
      obtain ⟨e, he, hee⟩ := List.mem_map.mp hmem
      rw [← hee]
      exact hnoidx e he
    rw [envObjectToArray, fromPairs_canonical ps hndps hcan, hjoin]

theorem splitEnvEntry_error_msg (x m : String)
    (h : splitEnvEntry x = .error m) : m = "Env var without =" := by
  unfold splitEnvEntry at h
  cases hs : splitCharsAtFirstEq x.data with
  | none =>
    rw [hs] at h
    injection h with h'
    exact h'.symm
  | some p =>
    rw [hs] at h
    exact Except.noConfusion h

theorem jsMapThrow_error (l : List String) (e : String) :
    e ∈ l → '=' ∉ e.data →
    jsMapThrow splitEnvEntry l = .error "Env var without =" := by
  induction l with
  | nil =>
    intro he _
    cases he
  | cons x xs ih =>
    intro he hne
    rcases List.mem_cons.mp he with hx | hxs
    · have hxe : splitEnvEntry x = .error "Env var without =" := by
        rw [← hx]
        exact (splitEnvEntry_error_iff e).mpr hne
      simp [jsMapThrow, hxe]
    · cases hfx : splitEnvEntry x with
      | error m =>
        simp [jsMapThrow, hfx, splitEnvEntry_error_msg x m hfx]
      | ok y =>
        simp [jsMapThrow, hfx, ih hxs hne]

theorem envArrayToObject_eq_error (l : List String) (e : String)
    (he : e ∈ l) (hne : '=' ∉ e.data) :
    envArrayToObject l = .error "Env var without =" := by
  rw [envArrayToObject, jsMapThrow_error l e he hne]

theorem envArrayToObject_envObjectToArray (m : JsObject)
    (hcan : canonicalOrder m = true)
    (hmnd : (m.map Prod.fst).Nodup) (hmkeys : ∀ p ∈ m, '=' ∉ p.1.data) :
    envArrayToObject (envObjectToArray m) = .ok m := by
  have hmap : jsMapThrow splitEnvEntry (envObjectToArray m) = .ok (m.map id) := by
    rw [envObjectToArray, jsMapThrow_map]
    exact jsMapThrow_ok_of_forall _ id m (fun p hp =>
      splitEnvEntry_entry p.1 p.2 (hmkeys p hp))
  rw [envArrayToObject, hmap]
  show Except.ok (fromPairs (m.map id)) = Except.ok m
  rw [List.map_id, fromPairs_canonical m hmnd hcan]

/-- C6 (amended): the Env Codec round-trip laws under the runtime's
ES2015 key-enumeration order. For every mapping `m` with valid keys (in
object enumeration order — which every JS object satisfies — with no
duplicate keys and no `=` inside a key), `toMapping (toList m) = m`. For
every list `l` of `K=V` strings (each containing an `=`) whose keys have
no duplicates, `toList (toMapping l)` consists of exactly the original
strings of `l` (a permutation), and equals `l` itself whenever no key of
`l` is an integer-like array-index string; integer-like keys such as
`"0"` are enumerated first in ascending numeric order, permuting the
output (see the counterexample). -/
theorem env_codec_roundtrip (m : JsObject) (l : List String)
    (hcan : canonicalOrder m = true)
    (hmnd : (m.map Prod.fst).Nodup)
    (hmkeys : ∀ p ∈ m, '=' ∉ p.1.data)
    (hl : ∀ e ∈ l, '=' ∈ e.data)
    (hlnd : (l.map envKey).Nodup) :
    envArrayToObject (envObjectToArray m) = .ok m
    ∧ ∃ m', envArrayToObject l = .ok m'
        ∧ (envObjectToArray m').Perm l
        ∧ ((∀ e ∈ l, isArrayIndex (envKey e) = false) → envObjectToArray m' = l) :=
  ⟨envArrayToObject_envObjectToArray m hcan hmnd hmkeys,
   envArrayToObject_of_entries l hl hlnd⟩

/-- C6 counterexample: at `l = ["B=2", "0=1"]` — duplicate-free keys,
each entry containing an `=` — the code yields
`toList (toMapping l) = ["0=1", "B=2"] ≠ l`: the integer-like key `"0"`
is enumerated before `"B"`, so the original strings survive the round
trip only as a set, not in their original order. -/
theorem env_codec_roundtrip_counterexample :
    envArrayToObject ["B=2", "0=1"] = .ok [("0", "1"), ("B", "2")]
    ∧ envObjectToArray [("0", "1"), ("B", "2")] = ["0=1", "B=2"]
    ∧ ¬ ∃ m', envArrayToObject ["B=2", "0=1"] = .ok m'
        ∧ envObjectToArray m' = ["B=2", "0=1"] := by
  refine ⟨rfl, rfl, ?_⟩
  rintro ⟨m', hm, hl⟩
  have e1 : envArrayToObject ["B=2", "0=1"] = .ok [("0", "1"), ("B", "2")] := rfl
  have he := e1.symm.trans hm
  injection he with he'
  rw [← he'] at hl
  exact absurd hl (by decide)

theorem env_codec_roundtrip_witness :
    envArrayToObject (envObjectToArray [("PATH", "/usr/bin"), ("HTTP_PROXY", "http://localhost:8000")])
      = .ok [("PATH", "/usr/bin"), ("HTTP_PROXY", "http://localhost:8000")]
    ∧ ∃ m', envArrayToObject ["A=1", "B=2=3"] = .ok m'
        ∧ envObjectToArray m' = ["A=1", "B=2=3"] := by
  have h := env_codec_roundtrip
    [("PATH", "/usr/bin"), ("HTTP_PROXY", "http://localhost:8000")]
    ["A=1", "B=2=3"] (by decide) (by decide) (by decide) (by decide) (by decide)
  refine ⟨h.1, ?_⟩
  obtain ⟨m', hok, _, hexact⟩ := h.2
  exact ⟨m', hok, hexact (by decide)⟩

/-- C7: `envArrayToObject` splits each entry at the first `=` (so values
may themselves contain `=`), and fails with the malformed-env error if
and only if some entry contains no `=` at all; in particular
`envArrayToObject ["NOEQUALS"]` fails. -/
theorem envArrayToObject_spec (l : List String) :
    ((∃ m, envArrayToObject l = .ok m) ↔ ∀ e ∈ l, '=' ∈ e.data)
    ∧ (∀ e ∈ l, ∀ k v : List Char, e.data = k ++ '=' :: v → '=' ∉ k →
        splitEnvEntry e = .ok (String.mk k, String.mk v))
    ∧ envArrayToObject ["NOEQUALS"] = .error "Env var without =" := by
  refine ⟨⟨?_, ?_⟩, ?_, ?_⟩
  · rintro ⟨m, hm⟩ e he
    by_contra hne
    rw [envArrayToObject_eq_error l e he hne] at hm
    exact Except.noConfusion hm
  · intro hl
    obtain ⟨ps, hps, _, _⟩ := envArrayToObject_pairs l hl
    exact ⟨fromPairs ps, by rw [envArrayToObject, hps]⟩
  · intro e _ k v hdata hk
    have : e = String.mk k ++ "=" ++ String.mk v := by
      apply String.ext
      simp [String.data_append, hdata]
    rw [this]
    exact splitEnvEntry_entry (String.mk k) (String.mk v) hk
  · exact envArrayToObject_eq_error ["NOEQUALS"] "NOEQUALS" (by simp) (by decide)

theorem envArrayToObject_spec_witness :
    (∃ m, envArrayToObject ["A=1", "B=2"] = .ok m)
    ∧ envArrayToObject ["NOEQUALS"] = .error "Env var without =" :=
  ⟨(envArrayToObject_spec ["A=1", "B=2"]).1.mpr (by decide),
   (envArrayToObject_spec ["NOEQUALS"]).2.2⟩

/-!
### Fixed injection paths

`path.posix.join` of these absolute prefixes with relative,
already-normalised segments is plain `/`-concatenation.
-/

def HTTP_TOOLKIT_INJECTED_PATH : String := "/http-toolkit-injections"

def HTTP_TOOLKIT_INJECTED_OVERRIDES_PATH : String :=
  HTTP_TOOLKIT_INJECTED_PATH ++ "/overrides"

def HTTP_TOOLKIT_INJECTED_CA_PATH : String :=
  HTTP_TOOLKIT_INJECTED_PATH ++ "/ca.pem"

/-- Modelled from the spec: `OVERRIDES_DIR`, the fixed source directory
whose contents are packed verbatim; it is imported from the external
terminal-env-overrides module (an external collaborator of this core,
only its path value is ever used here). -/
def OVERRIDES_DIR : String := "/httptoolkit-server/overrides"

/-!
### Archive packer (`packInterceptionFiles`)
-/

/-- One tar header, as seen by the tar-fs `map` callback. -/
structure TarHeader where
  name : String
  uid : Nat := 0
  gid : Nat := 0
  mode : Nat := 0o644
deriving Repr, DecidableEq

/-- One entry of the packed archive stream. -/
structure TarEntry where
  header : TarHeader
  content : String := ""
deriving Repr, DecidableEq

/-- `path.posix.join` on an absolute prefix and a relative,
already-normalised entry name from the tar-fs directory walk. -/
def posixJoin (a b : String) : String := a ++ "/" ++ b

/-- The tar-fs `map` callback of `packInterceptionFiles`: prefix the
stored name with the injected-overrides root, force root ownership and
`0555` (read + execute only) permission bits. -/
def mapHeader (fileHeader : TarHeader) : TarHeader :=
  { fileHeader with
    name := posixJoin HTTP_TOOLKIT_INJECTED_OVERRIDES_PATH fileHeader.name
    uid := 0
    gid := 0
    mode := 0o555 }

/-- `packInterceptionFiles`: tar-fs pack of `OVERRIDES_DIR` with the
`map` callback applied to every walked entry; `finalize: false` defers
the end of the stream to the `finish` callback, which appends the single
synthetic CA entry and only then finalizes, so the CA entry comes after
every directory entry. `dirEntries` is the directory walk of
`OVERRIDES_DIR`. -/
def packInterceptionFiles (dirEntries : List TarEntry) (certContent : String) : List TarEntry :=
  dirEntries.map (fun e => { e with header := mapHeader e.header })
  ++ [{ header := { name := HTTP_TOOLKIT_INJECTED_CA_PATH }, content := certContent }]

theorem overrides_name_ne_ca (x : String) :
    ¬ (HTTP_TOOLKIT_INJECTED_OVERRIDES_PATH ++ "/" ++ x = HTTP_TOOLKIT_INJECTED_CA_PATH) := by
  intro h
  have hlen := congrArg String.length h
  rw [String.length_append] at hlen
  have h1 : (HTTP_TOOLKIT_INJECTED_OVERRIDES_PATH ++ "/").length = 35 := rfl
  have h2 : HTTP_TOOLKIT_INJECTED_CA_PATH.length = 31 := rfl
  omega

/-- C4: the packed archive contains exactly one entry at the fixed
injected-CA path, holding exactly the certificate string, appended after
all directory entries (i.e. the stream decomposes as the mapped
directory entries followed by the CA entry, after which it is
finalized); and every other entry has its stored path prefixed with the
fixed injected-overrides root, owner and group forced to root
(uid 0 / gid 0) and permission bits `0555`. -/
theorem packInterceptionFiles_spec (dirEntries : List TarEntry) (certContent : String) :
    ((packInterceptionFiles dirEntries certContent).filter
        (fun e => e.header.name = HTTP_TOOLKIT_INJECTED_CA_PATH)
      = [{ header := { name := HTTP_TOOLKIT_INJECTED_CA_PATH }, content := certContent }])
    ∧ (∃ front, packInterceptionFiles dirEntries certContent
        = front ++ [{ header := { name := HTTP_TOOLKIT_INJECTED_CA_PATH }, content := certContent }]
        ∧ ∀ e ∈ front,
            (∃ rest, e.header.name = HTTP_TOOLKIT_INJECTED_OVERRIDES_PATH ++ "/" ++ rest)
            ∧ e.header.uid = 0 ∧ e.header.gid = 0 ∧ e.header.mode = 0o555) := by
  constructor
  · rw [packInterceptionFiles, List.filter_append]
    have hfront : (dirEntries.map (fun e => { e with header := mapHeader e.header })).filter
        (fun e => e.header.name = HTTP_TOOLKIT_INJECTED_CA_PATH) = [] := by
      rw [List.filter_eq_nil_iff]
      intro a ha
      obtain ⟨e, _, hea⟩ := List.mem_map.mp ha
      subst hea
      simpa [mapHeader, posixJoin] using overrides_name_ne_ca e.header.name
    rw [hfront]
    simp
  · refine ⟨_, rfl, ?_⟩
    intro e he
    obtain ⟨e₀, _, hee⟩ := List.mem_map.mp he
    subst hee
    exact ⟨⟨e₀.header.name, rfl⟩, rfl, rfl, rfl⟩

theorem packInterceptionFiles_spec_witness :
    (packInterceptionFiles
        [{ header := { name := "node/index.js", uid := 10, gid := 20, mode := 0o644 } }]
        "FAKE-CERT-PEM").filter
        (fun e => e.header.name = HTTP_TOOLKIT_INJECTED_CA_PATH)
      = [{ header := { name := HTTP_TOOLKIT_INJECTED_CA_PATH }, content := "FAKE-CERT-PEM" }] :=
  (packInterceptionFiles_spec
    [{ header := { name := "node/index.js", uid := 10, gid := 20, mode := 0o644 } }]
    "FAKE-CERT-PEM").1

/-!
### Docker tunnel lifecycle (`ensureDockerTunnelRunning`)

All tunnel operations run under one process-wide mutex, so within one
operation the engine state it observed is private to it; each operation
is modelled as a function of that state.
-/

/-- A host binding of the tunnel container's fixed internal port
`1080/tcp` (one element of `NetworkSettings.Ports['1080/tcp']`). -/
structure PortBinding where
  hostIp : String
  hostPort : String
deriving Repr, DecidableEq

/-- The tunnel container as inspect reports it here. A missing
`1080/tcp` key is modelled as the empty binding list (lodash `_.find`
treats `undefined` and `[]` alike). -/
structure TunnelContainer where
  running : Bool
  ports : List PortBinding
deriving Repr, DecidableEq

/-- Engine state seen by the tunnel lifecycle operations for one proxy
port: whether the tunnel image is present locally, the container with
the tunnel name (if any), and the loopback bindings the engine assigns
to a newly created tunnel container (the dynamic free port choice). -/
structure EngineState where
  imagePresent : Bool
  container : Option TunnelContainer
  enginePortChoice : List PortBinding
deriving Repr, DecidableEq

/-- One remote engine call issued by a tunnel operation. -/
inductive TunnelCall where
  | getImageInspect
  | pull
  | inspect
  | version
  | listNetworks
  | create
  | start
deriving Repr, DecidableEq

/-- `ensureDockerTunnelRunning`: under the lock — check the image and
pull it when missing; inspect the named container; when absent, read the
engine version and the builtin bridge gateway and create the container
(auto-remove, loopback-only dynamic binding of `1080/tcp`), then
re-inspect it; finally start it unless it is already running. -/
def ensureDockerTunnelRunning (st : EngineState) : EngineState × List TunnelCall :=
  let imageStep : EngineState × List TunnelCall :=
    if st.imagePresent then (st, [TunnelCall.getImageInspect])
    else ({ st with imagePresent := true }, [TunnelCall.getImageInspect, TunnelCall.pull])
  let st1 := imageStep.1
  let containerStep : EngineState × (List TunnelCall × TunnelContainer) :=
    match st1.container with
    | some c => (st1, ([TunnelCall.inspect], c))
    | none =>
      let c : TunnelContainer := { running := false, ports := st1.enginePortChoice }
      ({ st1 with container := some c },
       ([TunnelCall.inspect, TunnelCall.version, TunnelCall.listNetworks,
         TunnelCall.create, TunnelCall.inspect], c))
  let st2 := containerStep.1
  let c := containerStep.2.2
  if c.running then (st2, imageStep.2 ++ containerStep.2.1)
  else ({ st2 with container := some { c with running := true } },
        imageStep.2 ++ containerStep.2.1 ++ [TunnelCall.start])

theorem ensureDockerTunnelRunning_post (st : EngineState) :
    (ensureDockerTunnelRunning st).1.imagePresent = true
    ∧ ∃ c, (ensureDockerTunnelRunning st).1.container = some c ∧ c.running = true := by
  unfold ensureDockerTunnelRunning
  cases him : st.imagePresent <;> cases hc : st.container <;> simp [him, hc]
  all_goals
    (rename_i c; cases hr : c.running <;> simp [hr] <;> exact ⟨him, c, hc, hr⟩)

/-- C5: `ensureDockerTunnelRunning` is idempotent. When the named tunnel
container already exists no create call is issued, and when it is
moreover running no start call is issued either; hence two sequential
calls for the same port issue at most one create call in total, and the
second call is a no-op beyond the inspects: it changes nothing and only
issues the image check and the container inspect. -/
theorem ensureDockerTunnelRunning_idempotent (st : EngineState) :
    (∀ c, st.container = some c →
      TunnelCall.create ∉ (ensureDockerTunnelRunning st).2
      ∧ (c.running = true → TunnelCall.start ∉ (ensureDockerTunnelRunning st).2))
    ∧ ((ensureDockerTunnelRunning st).2
        ++ (ensureDockerTunnelRunning (ensureDockerTunnelRunning st).1).2).count
          TunnelCall.create ≤ 1
    ∧ ensureDockerTunnelRunning (ensureDockerTunnelRunning st).1
        = ((ensureDockerTunnelRunning st).1,
           [TunnelCall.getImageInspect, TunnelCall.inspect]) := by
  obtain ⟨him, c₁, hc₁, hr₁⟩ := ensureDockerTunnelRunning_post st
  have hsecond : ensureDockerTunnelRunning (ensureDockerTunnelRunning st).1
      = ((ensureDockerTunnelRunning st).1,
         [TunnelCall.getImageInspect, TunnelCall.inspect]) := by
    rw [ensureDockerTunnelRunning.eq_def]
    simp [him, hc₁, hr₁]
  refine ⟨?_, ?_, hsecond⟩
  · intro c hc
    rw [ensureDockerTunnelRunning.eq_def]
    cases hi : st.imagePresent <;>
      simp [hi, hc] <;> cases hr : c.running <;> simp [hr]
  · rw [hsecond]
    rw [ensureDockerTunnelRunning.eq_def]
    cases hi : st.imagePresent <;> cases hco : st.container <;> simp [hi, hco]
    · rename_i c
      cases hr : c.running <;> simp [hr, List.count_cons, List.count_append]
    · rename_i c
      cases hr : c.running <;> simp [hr, List.count_cons, List.count_append]

theorem ensureDockerTunnelRunning_idempotent_witness :
    TunnelCall.create ∉ (ensureDockerTunnelRunning
      { imagePresent := true,
        container := some { running := true, ports := [] },
        enginePortChoice := [] }).2 :=
  ((ensureDockerTunnelRunning_idempotent
    { imagePresent := true,
      container := some { running := true, ports := [] },
      enginePortChoice := [] }).1
    { running := true, ports := [] } rfl).1

/-!
### Tunnel network reconciliation (`updateDockerTunnelledNetworks`)
-/

/-- A connect or disconnect call issued by the network reconciler. Network
ids are `Option String` since `builtinBridge?.Id` is `undefined` when the
engine reports no builtin bridge network. -/
inductive NetOp where
  | connect (network : Option String)
  | disconnect (network : Option String)
deriving Repr, DecidableEq

/-- The lock-guarded core of `updateDockerTunnelledNetworks`:
`expectedNetworks` is `_.uniq([...interceptedNetworks, defaultBridgeId])`,
`currentNetworks` are the attached network ids of the container inspected
after lock acquisition; connects are issued for `expected − current` and
disconnects for `current − expected`, in that array order, as one
concurrent fan-out. -/
def updateNetworksOps (defaultBridgeId : Option String)
    (interceptedNetworks : List String) (currentNetworks : List String) : List NetOp :=
  let expectedNetworks := jsUniq (interceptedNetworks.map some ++ [defaultBridgeId])
  let current := currentNetworks.map some
  let missingNetworks := expectedNetworks.filter (fun n => ! current.contains n)
  let extraNetworks := current.filter (fun n => ! expectedNetworks.contains n)
  missingNetworks.map NetOp.connect ++ extraNetworks.map NetOp.disconnect

theorem mem_jsUniq {α : Type} [DecidableEq α] (l : List α) (x : α) :
    x ∈ jsUniq l ↔ x ∈ l := by
  have h : ∀ acc : List α,
      x ∈ l.foldl (fun acc y => if y ∈ acc then acc else acc ++ [y]) acc
        ↔ x ∈ acc ∨ x ∈ l := by
    induction l with
    | nil => intro acc; simp
    | cons y ys ih =>
      intro acc
      rw [List.foldl_cons]
      by_cases hy : y ∈ acc
      · rw [if_pos hy, ih acc]
        constructor
        · rintro (h | h)
          · exact Or.inl h
          · exact Or.inr (List.mem_cons_of_mem y h)
        · rintro (h | h)
          · exact Or.inl h
          · rcases List.mem_cons.mp h with rfl | h'
            · exact Or.inl hy
            · exact Or.inr h'
      · rw [if_neg hy, ih (acc ++ [y])]
        simp only [List.mem_append, List.mem_singleton, List.mem_cons]
        tauto
  simpa [jsUniq] using h []

theorem contains_true_iff {α : Type} [BEq α] [LawfulBEq α] (l : List α) (x : α) :
    l.contains x = true ↔ x ∈ l := by
  rw [List.contains_iff_exists_mem_beq]
  constructor
  · rintro ⟨b, hb, hxb⟩
    rw [eq_of_beq hxb]
    exact hb
  · intro h
    exact ⟨x, h, by simp⟩

theorem bang_contains_iff {α : Type} [BEq α] [LawfulBEq α] (l : List α) (x : α) :
    ((! l.contains x) = true) ↔ x ∉ l := by
  by_cases hx : x ∈ l
  · simp [hx, (contains_true_iff l x).mpr hx]
  · have hf : l.contains x = false := by
      cases h : l.contains x
      · rfl
      · exact absurd ((contains_true_iff l x).mp h) hx
    simp [hx, hf]

theorem updateNetworksOps_connect_iff (defaultBridgeId : Option String)
    (desired current : List String) (n : Option String) :
    NetOp.connect n ∈ updateNetworksOps defaultBridgeId desired current
      ↔ (n ∈ jsUniq (desired.map some ++ [defaultBridgeId]) ∧ n ∉ current.map some) := by
  unfold updateNetworksOps
  rw [List.mem_append]
  constructor
  · rintro (h | h)
    · obtain ⟨m, hm, heq⟩ := List.mem_map.mp h
      injection heq with heq'
      subst heq'
      obtain ⟨hmem, hfilt⟩ := List.mem_filter.mp hm
      exact ⟨hmem, (bang_contains_iff _ _).mp hfilt⟩
    · obtain ⟨m, _, heq⟩ := List.mem_map.mp h
      exact NetOp.noConfusion heq
  · rintro ⟨hmem, hnc⟩
    exact Or.inl (List.mem_map_of_mem NetOp.connect
      (List.mem_filter.mpr ⟨hmem, (bang_contains_iff _ _).mpr hnc⟩))

theorem updateNetworksOps_disconnect_iff (defaultBridgeId : Option String)
    (desired current : List String) (n : Option String) :
    NetOp.disconnect n ∈ updateNetworksOps defaultBridgeId desired current
      ↔ (n ∈ current.map some ∧ n ∉ jsUniq (desired.map some ++ [defaultBridgeId])) := by
  unfold updateNetworksOps
  rw [List.mem_append]
  constructor
  · rintro (h | h)
    · obtain ⟨m, _, heq⟩ := List.mem_map.mp h
      exact NetOp.noConfusion heq
    · obtain ⟨m, hm, heq⟩ := List.mem_map.mp h
      injection heq with heq'
      subst heq'
      obtain ⟨hmem, hfilt⟩ := List.mem_filter.mp hm
      exact ⟨hmem, (bang_contains_iff _ _).mp hfilt⟩
  · rintro ⟨hmem, hnc⟩
    exact Or.inr (List.mem_map_of_mem NetOp.disconnect
      (List.mem_filter.mpr ⟨hmem, (bang_contains_iff _ _).mpr hnc⟩))

/-- C3: with `D` the default bridge network id and `current` the attached
network ids read after lock acquisition, the reconciler issues connect
calls for exactly the set `(desired ∪ {D}) − current` and disconnect
calls for exactly the set `current − (desired ∪ {D})`; consequently `D`
is never disconnected, even when `D` is absent from `desired`. -/
theorem updateNetworksOps_spec (D : String) (desired current : List String) :
    (∀ m : String,
      NetOp.connect (some m) ∈ updateNetworksOps (some D) desired current
        ↔ ((m ∈ desired ∨ m = D) ∧ m ∉ current))
    ∧ (∀ m : String,
      NetOp.disconnect (some m) ∈ updateNetworksOps (some D) desired current
        ↔ (m ∈ current ∧ ¬ (m ∈ desired ∨ m = D)))
    ∧ NetOp.disconnect (some D) ∉ updateNetworksOps (some D) desired current := by
  have hexp : ∀ m : String,
      some m ∈ jsUniq (desired.map some ++ [some D]) ↔ (m ∈ desired ∨ m = D) := by
    intro m
    rw [mem_jsUniq, List.mem_append, List.mem_singleton]
    simp
  have hcur : ∀ m : String, some m ∈ current.map some ↔ m ∈ current := by
    intro m
    simp
  have hdisc : ∀ m : String,
      NetOp.disconnect (some m) ∈ updateNetworksOps (some D) desired current
        ↔ (m ∈ current ∧ ¬ (m ∈ desired ∨ m = D)) := by
    intro m
    rw [updateNetworksOps_disconnect_iff, hcur m, not_iff_not.mpr (hexp m)]
  refine ⟨?_, hdisc, ?_⟩
  · intro m
    rw [updateNetworksOps_connect_iff, hexp m, not_iff_not.mpr (hcur m)]
  · intro h
    have := (hdisc D).mp h
    exact this.2 (Or.inr rfl)

theorem updateNetworksOps_spec_witness :
    (NetOp.connect (some "C") ∈ updateNetworksOps (some "D") ["B", "C"] ["A", "B"])
    ∧ (NetOp.connect (some "D") ∈ updateNetworksOps (some "D") ["B", "C"] ["A", "B"])
    ∧ (NetOp.disconnect (some "A") ∈ updateNetworksOps (some "D") ["B", "C"] ["A", "B"])
    ∧ (NetOp.disconnect (some "B") ∉ updateNetworksOps (some "D") ["B", "C"] ["A", "B"]) :=
  ⟨((updateNetworksOps_spec "D" ["B", "C"] ["A", "B"]).1 "C").mpr (by decide),
   ((updateNetworksOps_spec "D" ["B", "C"] ["A", "B"]).1 "D").mpr (by decide),
   ((updateNetworksOps_spec "D" ["B", "C"] ["A", "B"]).2.1 "A").mpr (by decide),
   fun h => by
     have := ((updateNetworksOps_spec "D" ["B", "C"] ["A", "B"]).2.1 "B").mp h
     exact absurd this (by decide)⟩

/-!
### Tunnel port lookup (`getDockerTunnelPort`)
-/

inductive TunnelLookupError where
  | noPortMapped
deriving Repr, DecidableEq

/-- `parseInt(s, 10)` on the decimal strings the engine reports as host
ports: `none` models `NaN` (no leading digit). -/
def parseInt10 (s : String) : Option Nat :=
  let digits := s.data.takeWhile Char.isDigit
  if digits.isEmpty then none
  else some (digits.foldl (fun n c => n * 10 + (c.toNat - 48)) 0)

/-- `getDockerTunnelPort`: inspect the tunnel container, self-healing via
`ensureDockerTunnelRunning` followed by a re-inspect when it is missing;
then take the container's `1080/tcp` port mappings, `_.find` the one with
`HostIp === '127.0.0.1'`, throw the no-port-mapped error when there is
none, and otherwise return `parseInt(localPort.HostPort, 10)`. -/
def getDockerTunnelPort (st : EngineState) :
    Except TunnelLookupError (Option Nat) × List TunnelCall :=
  let inspected : TunnelContainer × List TunnelCall :=
    match st.container with
    | some c => (c, [TunnelCall.inspect])
    | none =>
      let r := ensureDockerTunnelRunning st
      (r.1.container.getD { running := false, ports := [] },
       [TunnelCall.inspect] ++ r.2 ++ [TunnelCall.inspect])
  match inspected.1.ports.find? (fun b => b.hostIp = "127.0.0.1") with
  | none => (.error .noPortMapped, inspected.2)
  | some localPort => (.ok (parseInt10 localPort.hostPort), inspected.2)

theorem getDockerTunnelPort_of_container (c : TunnelContainer) (st : EngineState)
    (hc : st.container = some c) :
    ((getDockerTunnelPort st).1 = .error .noPortMapped
      ↔ ∀ b ∈ c.ports, ¬ b.hostIp = "127.0.0.1")
    ∧ (∀ b, c.ports.find? (fun b => b.hostIp = "127.0.0.1") = some b →
        (getDockerTunnelPort st).1 = .ok (parseInt10 b.hostPort)) := by
  constructor
  · rw [getDockerTunnelPort.eq_def]
    simp only [hc]
    cases hf : c.ports.find? (fun b => b.hostIp = "127.0.0.1") with
    | none =>
      simp only [true_iff]
      intro b hb
      have := List.find?_eq_none.mp hf b hb
      simpa using this
    | some b =>
      simp only []
      constructor
      · intro h
        exact Except.noConfusion h
      · intro hall
        have hmem := List.mem_of_find?_eq_some hf
        have hip := List.find?_some hf
        exact absurd (by simpa using hip) (hall b hmem)
  · intro b hb
    rw [getDockerTunnelPort.eq_def]
    simp only [hc, hb]

/-- C8: `getDockerTunnelPort` inspects the tunnel container, self-healing
via `ensureDockerTunnelRunning` plus a re-inspect when the container is
missing, and returns as an integer the host port of the first `1080/tcp`
mapping whose host address is the loopback `127.0.0.1`; when no
loopback-bound mapping exists it fails with the distinct no-port-mapped
error instead of returning an empty or null value. -/
theorem getDockerTunnelPort_spec (st : EngineState) :
    (∀ c, st.container = some c →
      ((getDockerTunnelPort st).1 = .error .noPortMapped
        ↔ ∀ b ∈ c.ports, ¬ b.hostIp = "127.0.0.1")
      ∧ (∀ b, c.ports.find? (fun b => b.hostIp = "127.0.0.1") = some b →
          (getDockerTunnelPort st).1 = .ok (parseInt10 b.hostPort)))
    ∧ (st.container = none →
      (getDockerTunnelPort st).2
        = [TunnelCall.inspect] ++ (ensureDockerTunnelRunning st).2 ++ [TunnelCall.inspect]
      ∧ (∀ c, (ensureDockerTunnelRunning st).1.container = some c →
          (((getDockerTunnelPort st).1 = .error .noPortMapped
            ↔ ∀ b ∈ c.ports, ¬ b.hostIp = "127.0.0.1")
          ∧ (∀ b, c.ports.find? (fun b => b.hostIp = "127.0.0.1") = some b →
              (getDockerTunnelPort st).1 = .ok (parseInt10 b.hostPort))))) := by
  constructor
  · intro c hc
    exact getDockerTunnelPort_of_container c st hc
  · intro hnone
    constructor
    · rw [getDockerTunnelPort.eq_def]
      simp only [hnone]
      cases hf : ((ensureDockerTunnelRunning st).1.container.getD
          { running := false, ports := [] }).ports.find?
          (fun b => b.hostIp = "127.0.0.1") <;> simp
    · intro c hc
      have hgetd : (ensureDockerTunnelRunning st).1.container.getD
          { running := false, ports := [] } = c := by
        rw [hc]
        rfl
      constructor
      · rw [getDockerTunnelPort.eq_def]
        simp only [hnone, hgetd]
        cases hf : c.ports.find? (fun b => b.hostIp = "127.0.0.1") with
        | none =>
          simp only [true_iff]
          intro b hb
          have := List.find?_eq_none.mp hf b hb
          simpa using this
        | some b =>
          simp only []
          constructor
          · intro h
            exact Except.noConfusion h
          · intro hall
            have hmem := List.mem_of_find?_eq_some hf
            have hip := List.find?_some hf
            exact absurd (by simpa using hip) (hall b hmem)
      · intro b hb
        rw [getDockerTunnelPort.eq_def]
        simp only [hnone, hgetd, hb]

/-- A sample inspected tunnel container with both a wildcard and a
loopback binding of `1080/tcp`. -/
def sampleMappedContainer : TunnelContainer :=
  { running := true
    ports := [{ hostIp := "0.0.0.0", hostPort := "40000" },
              { hostIp := "127.0.0.1", hostPort := "32768" }] }

def sampleMappedState : EngineState :=
  { imagePresent := true
    container := some sampleMappedContainer
    enginePortChoice := [] }

def sampleUnmappedState : EngineState :=
  { imagePresent := true
    container := some { running := true, ports := [] }
    enginePortChoice := [] }

theorem getDockerTunnelPort_spec_witness :
    (getDockerTunnelPort sampleMappedState).1 = .ok (some 32768)
    ∧ (getDockerTunnelPort sampleUnmappedState).1 = .error .noPortMapped :=
  ⟨by
    have h := (getDockerTunnelPort_spec sampleMappedState).1 sampleMappedContainer rfl
    have hv := h.2 { hostIp := "127.0.0.1", hostPort := "32768" } (by decide)
    rw [hv]
    rfl,
   by
    have h := (getDockerTunnelPort_spec sampleUnmappedState).1
      { running := true, ports := [] } rfl
    exact h.1.mpr (by decide)⟩

/-!
### Tunnel teardown (`stopDockerTunnel`)
-/

/-- An HTTP-like failure reported by the container engine client. -/
structure DockerError where
  statusCode : Nat
deriving Repr, DecidableEq

/-- A container as returned by `listContainers` under the tunnel label
filter. -/
structure LabelledContainer where
  id : String
deriving Repr, DecidableEq

/-- The first rejection, in array order, of a `Promise.all` fan-out. -/
def firstError {α : Type} (f : α → Except DockerError Unit) : List α → Option DockerError
  | [] => none
  | x :: xs =>
    match f x with
    | .error e => some e
    | .ok _ => firstError f xs

/-- `promise.catch(() => {})`: any failure becomes success. -/
def swallow (r : Except DockerError Unit) : Except DockerError Unit :=
  match r with
  | .error _ => .ok ()
  | .ok _ => .ok ()

/-- Engine behaviour observed by `stopDockerTunnel`'s teardown block for
one call: the outcome of the label-filtered `listContainers` call, and
the per-container outcomes of kill and remove. -/
structure TeardownEngine where
  listResult : Except DockerError (List LabelledContainer)
  killResult : String → Except DockerError Unit
  removeResult : String → Except DockerError Unit

inductive TeardownCall where
  | list
  | kill (id : String)
  | remove (id : String)
deriving Repr, DecidableEq

/-- Per-container teardown: `container.kill().catch(() => {})` then
`container.remove().catch(() => {})` — both failures swallowed. -/
def containerTeardown (eng : TeardownEngine) (c : LabelledContainer) :
    Except DockerError Unit :=
  match swallow (eng.killResult c.id) with
  | .error e => .error e
  | .ok _ => swallow (eng.removeResult c.id)

/-- The lock-guarded async block of `stopDockerTunnel`: list all
containers carrying the tunnel label (scoped to one proxy port unless
`'all'`; the filter is evaluated by the engine, so `listResult` is
already the filtered list), then kill and remove each of them as one
`Promise.all` fan-out. -/
def stopTunnelTeardown (eng : TeardownEngine) :
    Except DockerError Unit × List TeardownCall :=
  match eng.listResult with
  | .error e => (.error e, [TeardownCall.list])
  | .ok containers =>
    (match firstError (containerTeardown eng) containers with
     | some e => .error e
     | none => .ok (),
     TeardownCall.list ::
       (containers.map (fun c => [TeardownCall.kill c.id, TeardownCall.remove c.id])).flatten)

/-- The caller-visible behaviour of `stopDockerTunnel(proxyPort)`: the
lock-guarded teardown promise is started but *not awaited* (and carries
no rejection handler), so the async function returns — and its promise
resolves — independently of the teardown outcome, recorded here as the
detached `background` result. -/
structure AsyncStopResult where
  resolved : Except DockerError Unit
  background : Except DockerError Unit × List TeardownCall

def stopDockerTunnel (eng : TeardownEngine) : AsyncStopResult :=
  { resolved := .ok ()
    background := stopTunnelTeardown eng }

theorem containerTeardown_ok (eng : TeardownEngine) (c : LabelledContainer) :
    containerTeardown eng c = .ok () := by
  unfold containerTeardown swallow
  cases eng.killResult c.id <;> cases hr : eng.removeResult c.id <;> simp

theorem firstError_containerTeardown_none (eng : TeardownEngine)
    (cs : List LabelledContainer) :
    firstError (containerTeardown eng) cs = none := by
  induction cs with
  | nil => rfl
  | cons c cs ih =>
    rw [firstError, containerTeardown_ok eng c]
    exact ih

/-- C10: `stopDockerTunnel` always resolves successfully, and does so
without waiting for the teardown work: the lock-guarded block is not
awaited, so the returned promise resolves `ok` for every engine
behaviour, before and independently of any kill/remove, and no failure
inside the block — including a `listContainers` failure — is surfaced to
the caller. (Kill/remove failures cannot even reject the detached
block — they are swallowed — while a list failure rejects only the
detached block.) -/
theorem stopDockerTunnel_spec (eng : TeardownEngine) :
    (stopDockerTunnel eng).resolved = .ok ()
    ∧ (∀ e, eng.listResult = .error e →
        (stopDockerTunnel eng).background.1 = .error e
        ∧ (stopDockerTunnel eng).resolved = .ok ())
    ∧ (∀ cs, eng.listResult = .ok cs →
        (stopDockerTunnel eng).background.1 = .ok ()) := by
  refine ⟨rfl, ?_, ?_⟩
  · intro e he
    constructor
    · show (stopTunnelTeardown eng).1 = .error e
      rw [stopTunnelTeardown.eq_def, he]
    · rfl
  · intro cs hcs
    show (stopTunnelTeardown eng).1 = .ok ()
    rw [stopTunnelTeardown.eq_def, hcs]
    simp [firstError_containerTeardown_none eng cs]

theorem stopDockerTunnel_spec_witness :
    (stopDockerTunnel
      { listResult := .error { statusCode := 500 },
        killResult := fun _ => .error { statusCode := 409 },
        removeResult := fun _ => .error { statusCode := 409 } }).background.1
        = .error { statusCode := 500 }
    ∧ (stopDockerTunnel
      { listResult := .error { statusCode := 500 },
        killResult := fun _ => .error { statusCode := 409 },
        removeResult := fun _ => .error { statusCode := 409 } }).resolved = .ok () :=
  (stopDockerTunnel_spec
    { listResult := .error { statusCode := 500 },
      killResult := fun _ => .error { statusCode := 409 },
      removeResult := fun _ => .error { statusCode := 409 } }).2.1
    { statusCode := 500 } rfl

/-!
### Container replacer (`restartAndInjectContainer`)
-/

/-- One network's endpoint configuration inside
`NetworkSettings.Networks` (IP, aliases, …), used verbatim as the
`EndpointConfig` / `EndpointsConfig` values. -/
structure EndpointSettings where
  networkID : String := ""
  ipAddress : String := ""
  aliases : List String := []
deriving Repr, DecidableEq

structure ContainerConfig where
  image : String := ""
  env : List String := []
deriving Repr, DecidableEq

/-- `HostConfig`; a null `Binds` (`Binds || []`) is the empty list. -/
structure HostConfig where
  binds : List String := []
deriving Repr, DecidableEq

/-- The inspect snapshot of the target container:
`containerDetails.Config`, `.HostConfig`, `.Name` and
`.NetworkSettings.Networks` (a JS object, in key insertion order). -/
structure ContainerDetails where
  name : String := ""
  config : ContainerConfig := {}
  hostConfig : HostConfig := {}
  networks : List (String × EndpointSettings) := []
deriving Repr, DecidableEq

inductive InterceptionType where
  | mount
  | inject
deriving Repr, DecidableEq

structure InterceptionConfig where
  interceptionType : InterceptionType
  proxyPort : Nat
  certContent : String
  certPath : String
deriving Repr, DecidableEq

/-- The `getTerminalEnvVars` external collaborator: a pure function of
`(proxyPort, certPath, current env mapping, httpToolkitIp, overridePath,
targetPlatform)` producing the override env object. -/
abbrev TerminalEnvFn :=
  Nat → String → JsObject → String → String → String → JsObject

/-- The `createContainer` request derived from the snapshot. -/
structure CreateRequest where
  config : ContainerConfig
  hostConfig : HostConfig
  name : String
  endpointsConfig : List (String × EndpointSettings)
  env : List String
deriving Repr, DecidableEq

/-- One remote engine call issued by `restartAndInjectContainer`. -/
inductive EngineCall where
  | inspect (id : String)
  | stop (id : String)
  | remove (id : String)
  | create (req : CreateRequest)
  | connect (network : String) (container : String) (endpointConfig : Option EndpointSettings)
  | putArchive (container : String)
  | start (id : String)
deriving Repr, DecidableEq

/-- The failure of a `restartAndInjectContainer` call: a rejected engine
call, or a locally thrown `Error` (the malformed env entry). -/
inductive ReplaceError where
  | engine (e : DockerError)
  | thrown (msg : String)
deriving Repr, DecidableEq

/-- The engine behaviour one `restartAndInjectContainer` call runs
against: the outcome of each remote call it may issue. `connectResult`
is keyed by the name passed to `getNetwork`. -/
structure ReplaceEngine where
  inspectResult : Except DockerError ContainerDetails
  stopResult : Except DockerError Unit
  removeResult : Except DockerError Unit
  createResult : Except DockerError String
  connectResult : String → Except DockerError Unit
  putArchiveResult : Except DockerError Unit
  startResult : Except DockerError Unit

/-- `container.remove().catch(e => ...)`: statuses 409/404/304 mean the
container is already gone (e.g. started with `--rm`) and are treated as
success; any other failure is re-thrown. -/
def checkRemove : Except DockerError Unit → Except DockerError Unit
  | .ok _ => .ok ()
  | .error e => if [409, 404, 304].contains e.statusCode then .ok () else .error e

/-- Build the `createContainer` request from the snapshot: same config
and name; in mount mode two read-only binds are appended (the cert file
at the injected CA path and the overrides dir at the injected overrides
path), in inject mode the host config is reused unmodified; the
`NetworkingConfig` carries only the first network when more than one is
attached; the env is the original env list concatenated with the
override env list, whose computation parses the original env as an
object (`envArrayToObject` throws here on a malformed entry, before any
create call is issued). -/
def buildCreateRequest (gtev : TerminalEnvFn) (cfg : InterceptionConfig)
    (details : ContainerDetails) : Except String CreateRequest :=
  match envArrayToObject details.config.env with
  | .error e => .error e
  | .ok envObj =>
    .ok { config := details.config
          hostConfig :=
            match cfg.interceptionType with
            | .mount =>
              { details.hostConfig with
                binds := details.hostConfig.binds ++
                  [cfg.certPath ++ ":" ++ HTTP_TOOLKIT_INJECTED_CA_PATH ++ ":ro",
                   OVERRIDES_DIR ++ ":" ++ HTTP_TOOLKIT_INJECTED_OVERRIDES_PATH ++ ":ro"] }
            | .inject => details.hostConfig
          name := details.name
          endpointsConfig :=
            if (details.networks.map Prod.fst).length > 1 then
              match details.networks with
              | p :: _ => [p]
              | [] => []
            else details.networks
          env := details.config.env ++
            envObjectToArray (gtev cfg.proxyPort HTTP_TOOLKIT_INJECTED_CA_PATH envObj
              "172.17.0.1" HTTP_TOOLKIT_INJECTED_OVERRIDES_PATH "linux") }

/-- The keys the post-create reconnect loop iterates over:
`Object.keys(networkNames.slice(1))` — `Object.keys` applied to the
sliced *array*, i.e. its index strings `"0" … "n-2"`, not the remaining
network names. -/
def reconnectKeys (details : ContainerDetails) : List String :=
  if (details.networks.map Prod.fst).length > 1 then
    jsArrayKeys ((details.networks.map Prod.fst).drop 1)
  else []

/-- `restartAndInjectContainer`: inspect, stop (`t: 1`), remove
(tolerating already-gone statuses), create the clone (building the
request may throw on a malformed env entry), reconnect networks when
more than one was attached (a `Promise.all` fan-out), put the
interception archive in inject mode, then start. Returns the outcome
together with the engine calls issued, in order. -/
def restartAndInjectContainer (eng : ReplaceEngine) (gtev : TerminalEnvFn)
    (containerId : String) (cfg : InterceptionConfig) :
    Except ReplaceError Unit × List EngineCall :=
  match eng.inspectResult with
  | .error e => (.error (.engine e), [EngineCall.inspect containerId])
  | .ok details =>
    match eng.stopResult with
    | .error e =>
      (.error (.engine e), [EngineCall.inspect containerId, EngineCall.stop containerId])
    | .ok _ =>
      match checkRemove eng.removeResult with
      | .error e =>
        (.error (.engine e),
         [EngineCall.inspect containerId, EngineCall.stop containerId,
          EngineCall.remove containerId])
      | .ok _ =>
        match buildCreateRequest gtev cfg details with
        | .error msg =>
          (.error (.thrown msg),
           [EngineCall.inspect containerId, EngineCall.stop containerId,
            EngineCall.remove containerId])
        | .ok req =>
          let pre := [EngineCall.inspect containerId, EngineCall.stop containerId,
                      EngineCall.remove containerId, EngineCall.create req]
          match eng.createResult with
          | .error e => (.error (.engine e), pre)
          | .ok newId =>
            let connectCalls := (reconnectKeys details).map (fun nm =>
              EngineCall.connect nm newId (jsGet details.networks nm))
            let t := pre ++ connectCalls
            match firstError eng.connectResult (reconnectKeys details) with
            | some e => (.error (.engine e), t)
            | none =>
              match cfg.interceptionType with
              | .inject =>
                match eng.putArchiveResult with
                | .error e => (.error (.engine e), t ++ [EngineCall.putArchive newId])
                | .ok _ =>
                  match eng.startResult with
                  | .error e =>
                    (.error (.engine e),
                     t ++ [EngineCall.putArchive newId, EngineCall.start newId])
                  | .ok _ =>
                    (.ok (), t ++ [EngineCall.putArchive newId, EngineCall.start newId])
              | .mount =>
                match eng.startResult with
                | .error e => (.error (.engine e), t ++ [EngineCall.start newId])
                | .ok _ => (.ok (), t ++ [EngineCall.start newId])

theorem firstError_eq_none {α : Type} (f : α → Except DockerError Unit) (l : List α)
    (h : firstError f l = none) : ∀ x ∈ l, f x = .ok () := by
  induction l with
  | nil =>
    intro x hx
    cases hx
  | cons y ys ih =>
    intro x hx
    rw [firstError] at h
    cases hfy : f y with
    | error e =>
      rw [hfy] at h
      exact Option.noConfusion h
    | ok u =>
      rw [hfy] at h
      rcases List.mem_cons.mp hx with rfl | hx'
      · cases u
        exact hfy
      · exact ih h x hx'

/-- C2: `restartAndInjectContainer` fails whenever any engine call
fails, with the single exception of remove: a successful run implies
every engine call it issued succeeded (remove allowed to have failed
only with a tolerated status); a remove failure with status 409, 404 or
304 is treated as success — the whole run is identical to one where
remove succeeded — while a remove failure with any other status (for
example 500) is re-thrown to the caller. -/
theorem restartAndInjectContainer_error_spec (eng : ReplaceEngine) (gtev : TerminalEnvFn)
    (containerId : String) (cfg : InterceptionConfig) :
    ((restartAndInjectContainer eng gtev containerId cfg).1 = .ok () →
      (∃ d, eng.inspectResult = .ok d)
      ∧ eng.stopResult = .ok ()
      ∧ checkRemove eng.removeResult = .ok ()
      ∧ (∃ i, eng.createResult = .ok i)
      ∧ (∀ d, eng.inspectResult = .ok d →
          ∀ nm ∈ reconnectKeys d, eng.connectResult nm = .ok ())
      ∧ (cfg.interceptionType = .inject → eng.putArchiveResult = .ok ())
      ∧ eng.startResult = .ok ())
    ∧ (∀ e, eng.removeResult = .error e →
        [409, 404, 304].contains e.statusCode = true →
        restartAndInjectContainer eng gtev containerId cfg
          = restartAndInjectContainer
              { eng with removeResult := .ok () } gtev containerId cfg)
    ∧ (∀ e details, eng.removeResult = .error e →
        [409, 404, 304].contains e.statusCode = false →
        eng.inspectResult = .ok details → eng.stopResult = .ok () →
        (restartAndInjectContainer eng gtev containerId cfg).1 = .error (.engine e)) := by
  refine ⟨?_, ?_, ?_⟩
  · intro hok
    rw [restartAndInjectContainer.eq_def] at hok
    cases hin : eng.inspectResult with
    | error e => simp [hin] at hok
    | ok details =>
    simp only [hin] at hok
    cases hstop : eng.stopResult with
    | error e => simp [hstop] at hok
    | ok u =>
    cases u
    simp only [hstop] at hok
    cases hrm : checkRemove eng.removeResult with
    | error e => simp [hrm] at hok
    | ok u =>
    cases u
    simp only [hrm] at hok
    cases hbr : buildCreateRequest gtev cfg details with
    | error m => simp [hbr] at hok
    | ok req =>
    simp only [hbr] at hok
    cases hcr : eng.createResult with
    | error e => simp [hcr] at hok
    | ok newId =>
    simp only [hcr] at hok
    cases hfe : firstError eng.connectResult (reconnectKeys details) with
    | some e => simp [hfe] at hok
    | none =>
    simp only [hfe] at hok
    refine ⟨⟨details, rfl⟩, rfl, rfl, ⟨newId, rfl⟩, ?_, ?_, ?_⟩
    · intro d hd nm hnm
      injection hd with hd'
      subst hd'
      exact firstError_eq_none _ _ hfe nm hnm
    · intro hit
      rw [hit] at hok
      cases hpa : eng.putArchiveResult with
      | error e => simp [hpa] at hok
      | ok u =>
        cases u
        rfl
    · cases hit : cfg.interceptionType <;> rw [hit] at hok
      · cases hst : eng.startResult with
        | error e => simp [hst] at hok
        | ok u =>
          cases u
          rfl
      · cases hpa : eng.putArchiveResult with
        | error e => simp [hpa] at hok
        | ok u =>
          cases u
          simp only [hpa] at hok
          cases hst : eng.startResult with
          | error e => simp [hst] at hok
          | ok u =>
            cases u
            rfl
  · intro e hrem hstat
    have hck1 : checkRemove (Except.error e) = Except.ok () := by
      show (if [409, 404, 304].contains e.statusCode then Except.ok ()
            else Except.error e) = Except.ok ()
      rw [hstat]
      rfl
    have hck2 : checkRemove (Except.ok ()) = Except.ok () := rfl
    have h1 : ({ eng with removeResult := Except.ok () } : ReplaceEngine).inspectResult
        = eng.inspectResult := rfl
    have h2 : ({ eng with removeResult := Except.ok () } : ReplaceEngine).stopResult
        = eng.stopResult := rfl
    have h3 : ({ eng with removeResult := Except.ok () } : ReplaceEngine).removeResult
        = Except.ok () := rfl
    have h4 : ({ eng with removeResult := Except.ok () } : ReplaceEngine).createResult
        = eng.createResult := rfl
    have h5 : ({ eng with removeResult := Except.ok () } : ReplaceEngine).connectResult
        = eng.connectResult := rfl
    have h6 : ({ eng with removeResult := Except.ok () } : ReplaceEngine).putArchiveResult
        = eng.putArchiveResult := rfl
    have h7 : ({ eng with removeResult := Except.ok () } : ReplaceEngine).startResult
        = eng.startResult := rfl
    rw [restartAndInjectContainer.eq_def, restartAndInjectContainer.eq_def,
      h1, h2, h3, h4, h5, h6, h7, hrem, hck1, hck2]
  · intro e details hrem hstat hin hstop
    have hcr : checkRemove eng.removeResult = .error e := by
      rw [hrem]
      show (if [409, 404, 304].contains e.statusCode then Except.ok ()
            else Except.error e) = Except.error e
      rw [hstat]
      rfl
    rw [restartAndInjectContainer.eq_def]
    simp [hin, hstop, hcr]

/-! Concrete inputs exercising the replacer. -/

def endpointA : EndpointSettings :=
  { networkID := "net-a-id", ipAddress := "172.18.0.2" }

def endpointB : EndpointSettings :=
  { networkID := "net-b-id", ipAddress := "172.19.0.3", aliases := ["db"] }

/-- A snapshot attached to two networks, `netA` and `netB`. -/
def twoNetworkDetails : ContainerDetails :=
  { name := "/my-app"
    config := { image := "img", env := ["PATH=/bin"] }
    hostConfig := { binds := [] }
    networks := [("netA", endpointA), ("netB", endpointB)] }

/-- An engine where every call succeeds. -/
def happyEngine : ReplaceEngine :=
  { inspectResult := .ok twoNetworkDetails
    stopResult := .ok ()
    removeResult := .ok ()
    createResult := .ok "new-id"
    connectResult := fun _ => .ok ()
    putArchiveResult := .ok ()
    startResult := .ok () }

def trivialEnvFn : TerminalEnvFn :=
  fun _ _ _ _ _ _ => [("HTTP_PROXY", "http://127.0.0.1:8000")]

def mountConfig : InterceptionConfig :=
  { interceptionType := .mount
    proxyPort := 8000
    certContent := "CERT"
    certPath := "/tmp/ca.pem" }

def tolerantRemoveEngine : ReplaceEngine :=
  { happyEngine with removeResult := .error { statusCode := 404 } }

def fatalRemoveEngine : ReplaceEngine :=
  { happyEngine with removeResult := .error { statusCode := 500 } }

theorem restartAndInjectContainer_error_spec_witness :
    restartAndInjectContainer tolerantRemoveEngine trivialEnvFn "target" mountConfig
      = restartAndInjectContainer { tolerantRemoveEngine with removeResult := .ok () }
          trivialEnvFn "target" mountConfig
    ∧ (restartAndInjectContainer fatalRemoveEngine trivialEnvFn "target" mountConfig).1
      = .error (.engine { statusCode := 500 }) :=
  ⟨(restartAndInjectContainer_error_spec tolerantRemoveEngine trivialEnvFn
      "target" mountConfig).2.1 { statusCode := 404 } rfl (by decide),
   (restartAndInjectContainer_error_spec fatalRemoveEngine trivialEnvFn
      "target" mountConfig).2.2 { statusCode := 500 } twoNetworkDetails rfl
      (by decide) rfl rfl⟩

/-- C1 (recording the code bug): for the two-network snapshot the clone
is created with only the first network and exactly one follow-up connect
call is issued — but `Object.keys(networkNames.slice(1))` enumerates the
*index strings* of the sliced array, so that connect call targets a
network named `"0"` with an `undefined` endpoint config, instead of
`netB` with its endpoint configuration taken verbatim from the snapshot
as the spec (and the code's own comment, "We reconnect all networks")
require. -/
theorem restartAndInjectContainer_connect_bug :
    ((restartAndInjectContainer happyEngine trivialEnvFn "target" mountConfig).2.filter
        (fun c => match c with
          | EngineCall.connect _ _ _ => true
          | _ => false)
      = [EngineCall.connect "0" "new-id" none])
    ∧ EngineCall.connect "netB" "new-id" (some endpointB)
        ∉ (restartAndInjectContainer happyEngine trivialEnvFn "target" mountConfig).2
    ∧ (restartAndInjectContainer happyEngine trivialEnvFn "target" mountConfig).1
        = .ok () := by
  refine ⟨?_, ?_, ?_⟩
  · decide
  · decide
  · rfl

/-- C9: when the snapshot's env list contains an entry with no `=`, the
malformed-env error is raised only after the original container has
already been stopped and removed, because the env list is parsed while
the creation request is built; the failed operation's trace is exactly
inspect, stop, remove — the destructive steps have happened and no
create or start is ever issued, so no container is left in existence. -/
theorem restartAndInjectContainer_malformed_env_after_destruction
    (eng : ReplaceEngine) (gtev : TerminalEnvFn) (containerId : String)
    (cfg : InterceptionConfig) (details : ContainerDetails) (e : String)
    (hin : eng.inspectResult = .ok details)
    (hstop : eng.stopResult = .ok ())
    (hrem : checkRemove eng.removeResult = .ok ())
    (he : e ∈ details.config.env) (hne : '=' ∉ e.data) :
    (restartAndInjectContainer eng gtev containerId cfg).1
      = .error (.thrown "Env var without =")
    ∧ (restartAndInjectContainer eng gtev containerId cfg).2
      = [EngineCall.inspect containerId, EngineCall.stop containerId,
         EngineCall.remove containerId] := by
  have hbuild : buildCreateRequest gtev cfg details = .error "Env var without =" := by
    rw [buildCreateRequest.eq_def, envArrayToObject_eq_error details.config.env e he hne]
  rw [restartAndInjectContainer.eq_def]
  simp [hin, hstop, hrem, hbuild]

def malformedDetails : ContainerDetails :=
  { name := "/bad"
    config := { image := "img", env := ["NOEQUALS"] }
    hostConfig := {}
    networks := [] }

def malformedEngine : ReplaceEngine :=
  { happyEngine with inspectResult := .ok malformedDetails }

theorem restartAndInjectContainer_malformed_env_witness :
    (restartAndInjectContainer malformedEngine trivialEnvFn "target" mountConfig).1
      = .error (.thrown "Env var without =")
    ∧ (restartAndInjectContainer malformedEngine trivialEnvFn "target" mountConfig).2
      = [EngineCall.inspect "target", EngineCall.stop "target",
         EngineCall.remove "target"] :=
  restartAndInjectContainer_malformed_env_after_destruction malformedEngine trivialEnvFn
    "target" mountConfig malformedDetails "NOEQUALS" rfl rfl rfl (by decide) (by decide)

end HTDocker
